import Mathlib

/-!
Verification development for the document ingestion and hybrid search service.

The definitions below are a shallow embedding of the TypeScript sources:
  - `src/server/utils/embeddings.ts` (dense vectors, hybrid search, snippets)
  - `src/server/utils/sparse-vectors.ts` (sparse TF-IDF vectors, dot product)
  - `src/activities/document-processing.ts` (pipeline activities)
  - `src/workflows/document-processing.workflow.ts` (orchestrator)
  - the email scheduler workflow (`CheckUserEmailsWorkflow`) and
    `src/activities/email-processing.ts`
  - `src/prisma/migrations/20260111233542_init/migration.sql` (schema)

JavaScript floating point arithmetic is modelled by exact arithmetic over
`ℚ`/`ℝ` (with `Real.log`, `Real.sqrt` for `Math.log`, `Math.sqrt`); 32-bit
integer coercion in the hash function is modelled explicitly by wrapping
modulo 2^32.
-/

namespace Gnowsis

/-! ## Text utilities

JS `\w` in a regex is `[A-Za-z0-9_]`; `String.prototype.match(/\b\w+\b/g)`
on a string returns the maximal runs of word characters.  `toLowerCase`
is modelled per character. -/

/-- A JS regex word character: `[A-Za-z0-9_]`. -/
def isWordChar (c : Char) : Bool :=
  (c.isAlpha || c.isDigit) || c = '_'

/-- Maximal runs of word characters of a character list (the JS
`text.match(/\b\w+\b/g)` token list), accumulator holds the current
run reversed. -/
def splitRuns : List Char → List Char → List (List Char)
  | [], acc => if acc.isEmpty then [] else [acc.reverse]
  | c :: cs, acc =>
    if isWordChar c then splitRuns cs (c :: acc)
    else if acc.isEmpty then splitRuns cs []
    else acc.reverse :: splitRuns cs []

/-- `text.toLowerCase().match(/\b\w+\b/g) || []`: the lower-cased word
tokens of a text, in order. -/
def wordsOf (text : String) : List String :=
  (splitRuns (text.data.map Char.toLower) []).map List.asString

/-! ## `simpleHash` (embeddings.ts)

`hash = ((hash << 5) - hash) + char; hash = hash & hash` — the shift and
the `&` coerce to a signed 32-bit integer; the subtraction and addition
are exact (double precision suffices at these magnitudes). -/

/-- Coerce an integer to a signed 32-bit value (JS `x | 0` / `x & x`). -/
def toInt32 (x : ℤ) : ℤ :=
  (x + 2 ^ 31) % 2 ^ 32 - 2 ^ 31

/-- One step of `simpleHash`: `hash = (((hash << 5) | 0) - hash) + char`
followed by the 32-bit coercion `hash = hash & hash`. -/
def hashStep (h : ℤ) (c : Char) : ℤ :=
  toInt32 (toInt32 (h * 32) - h + (c.toNat : ℤ))

/-- `simpleHash(str, seed)` from embeddings.ts. -/
def simpleHash (str : List Char) (seed : ℤ) : ℤ :=
  str.foldl hashStep seed

/-! ## `generateDenseVector` (embeddings.ts)

The accumulation phase is exact rational arithmetic; the final L2
normalization lives in `ℝ`.  A vector is modelled as a function
`ℕ → ℚ` (resp. `ℕ → ℝ`), the source array being indexed by
`0 ≤ p < 1536`. -/

/-- `vectorSize = 1536`. -/
def denseDim : ℕ := 1536

/-- `Math.abs(simpleHash(word, j)) % vectorSize`. -/
def hashIndex (w : String) (j : ℕ) : ℕ :=
  (simpleHash w.data (j : ℤ)).natAbs % denseDim

/-- The three hash positions of a word (`for j in 0..2`). -/
def contribPositions (w : String) : List ℕ :=
  [hashIndex w 0, hashIndex w 1, hashIndex w 2]

/-- `positionWeight = 1.0 - (i / (words.length * 2))`. -/
def posWeight (i n : ℕ) : ℚ :=
  1 - (i : ℚ) / ((n : ℚ) * 2)

/-- `vector[position] += w`. -/
def bump (v : ℕ → ℚ) (p : ℕ) (w : ℚ) : ℕ → ℚ :=
  Function.update v p (v p + w)

/-- The word loop of `generateDenseVector`: for the word at index `i`,
skip it when its length is `< 2`, otherwise accumulate its position
weight at each of its three hash positions.  `n` is the total word
count `words.length`. -/
def denseStep (n : ℕ) (v : ℕ → ℚ) (iw : ℕ × String) : ℕ → ℚ :=
  if iw.2.length < 2 then v
  else (contribPositions iw.2).foldl (fun v p => bump v p (posWeight iw.1 n)) v

/-- The accumulated (pre-normalization) dense vector of a word list. -/
def denseAccum (ws : List String) : ℕ → ℚ :=
  ws.enum.foldl (denseStep ws.length) (fun _ => 0)

/-- `Math.sqrt(vector.reduce((sum, val) => sum + val * val, 0))` over the
1536 slots. -/
noncomputable def l2magnitude (v : ℕ → ℚ) : ℝ :=
  Real.sqrt (∑ p ∈ Finset.range denseDim, ((v p : ℝ)) ^ 2)

/-- Divide by the magnitude when it is positive (`if (magnitude > 0)`),
otherwise leave the vector unchanged. -/
noncomputable def normalizeDense (v : ℕ → ℚ) : ℕ → ℝ :=
  if 0 < l2magnitude v then fun p => (v p : ℝ) / l2magnitude v
  else fun p => (v p : ℝ)

/-- `generateDenseVector(text)` from embeddings.ts.  The two early
returns of the source (empty normalized text, empty word list) both
yield the zero vector and are modelled by the single `ws = []` test:
a text whose lower-cased trim is empty has no word tokens. -/
noncomputable def generateDenseVector (text : String) : ℕ → ℝ :=
  let ws := wordsOf text
  if ws = [] then fun _ => 0
  else normalizeDense (denseAccum ws)

/-- The dense-embedding algorithm exactly as the specification words it
(for the refinement claim): every token at position `i` of `n` tokens
contributes its position weight `1 - i/(2n)` at each of its three hash
positions — with no restriction on the token. -/
def claimDenseAccum (ws : List String) (p : ℕ) : ℚ :=
  (ws.enum.map (fun iw =>
    ∑ j ∈ Finset.range 3,
      if hashIndex iw.2 j = p then posWeight iw.1 ws.length else 0)).sum

/-- The spec-worded dense vector: accumulate per the claim's algorithm,
then L2-normalize (zero vector for empty/degenerate text). -/
noncomputable def claimDenseVector (text : String) : ℕ → ℝ :=
  let ws := wordsOf text
  if ws = [] then fun _ => 0
  else normalizeDense (claimDenseAccum ws)

/-- The claim's algorithm amended with the source's guard: only tokens
of length at least 2 contribute. -/
def claimDenseAccumAmended (ws : List String) (p : ℕ) : ℚ :=
  (ws.enum.map (fun iw =>
    if 2 ≤ iw.2.length then
      ∑ j ∈ Finset.range 3,
        if hashIndex iw.2 j = p then posWeight iw.1 ws.length else 0
    else 0)).sum

/-- The amended spec-worded dense vector. -/
noncomputable def claimDenseVectorAmended (text : String) : ℕ → ℝ :=
  let ws := wordsOf text
  if ws = [] then fun _ => 0
  else normalizeDense (claimDenseAccumAmended ws)

/-! ## `generateSparseVector` (sparse-vectors.ts)

A JS object mapping tokens to weights is modelled as an association
list whose keys are the distinct filtered terms.  The combinatorial
part (terms, frequencies) is computable; the weights use `Real.log`. -/

/-- `STOP_WORDS` from sparse-vectors.ts (the source lists `'the'`
twice; as a set this is immaterial). -/
def STOP_WORDS : List String :=
  ["a", "an", "and", "are", "as", "at", "be", "by", "for", "from",
   "has", "he", "in", "is", "it", "its", "of", "on", "that", "the",
   "to", "was", "will", "with", "the", "this", "but", "they", "have",
   "had", "what", "when", "where", "who", "which", "why", "how"]

/-- `words.filter(word => word.length > 2 && !STOP_WORDS.has(word))`. -/
def filteredWords (text : String) : List String :=
  (wordsOf text).filter (fun w => 2 < w.length && !(STOP_WORDS.contains w))

/-- `termFrequency[word]` after the counting loop. -/
def termFrequency (text t : String) : ℕ :=
  (filteredWords text).count t

/-- `totalTerms = filteredWords.length`. -/
def totalTerms (text : String) : ℕ :=
  (filteredWords text).length

/-- The key set of the sparse object: the distinct filtered terms. -/
def sparseTerms (text : String) : List String :=
  (filteredWords text).dedup

/-- `TF = log(1 + count)`. -/
noncomputable def tfScore (text t : String) : ℝ :=
  Real.log (1 + (termFrequency text t : ℝ))

/-- `termRarity = totalTerms / termCount; idfApprox = log(1 + termRarity)`. -/
noncomputable def idfApprox (text t : String) : ℝ :=
  Real.log (1 + (totalTerms text : ℝ) / (termFrequency text t : ℝ))

/-- The raw TF-IDF weight `tfScore * idfApprox` before normalization. -/
noncomputable def rawWeight (text t : String) : ℝ :=
  tfScore text t * idfApprox text t

/-- `maxWeight = Math.max(...Object.values(sparseVector), 1)`. -/
noncomputable def maxWeightDivisor (text : String) : ℝ :=
  ((sparseTerms text).map (rawWeight text)).foldr max 1

/-- The stored weight of a term after `sparseVector[term] /= maxWeight`. -/
noncomputable def sparseWeight (text t : String) : ℝ :=
  rawWeight text t / maxWeightDivisor text

/-- `generateSparseVector(text)` from sparse-vectors.ts, as an
association list over the distinct filtered terms. -/
noncomputable def generateSparseVector (text : String) : List (String × ℝ) :=
  (sparseTerms text).map (fun t => (t, sparseWeight text t))

/-! ## `sparseDotProduct` and the fused score (embeddings.ts) -/

/-- `sparseDotProduct(vec1, vec2)`: iterate over the smaller map,
adding `weight * largerVec[token]` whenever the token is present in
the larger map. -/
noncomputable def sparseDotProduct (v1 v2 : List (String × ℝ)) : ℝ :=
  let sl := if v1.length ≤ v2.length then (v1, v2) else (v2, v1)
  sl.1.foldl
    (fun acc p =>
      match sl.2.lookup p.1 with
      | some w => acc + p.2 * w
      | none => acc)
    0

/-- `denseScore = Math.max(0, 1 - denseDistance / 2)`. -/
noncomputable def denseScore (d : ℝ) : ℝ :=
  max 0 (1 - d / 2)

/-- `hybridScore = 0.6 * denseScore + 0.4 * sparseScore` for a page at
dense distance `d`, query sparse map `q` and stored sparse map `doc`. -/
noncomputable def hybridScore (d : ℝ) (q doc : List (String × ℝ)) : ℝ :=
  0.6 * denseScore d + 0.4 * sparseDotProduct q doc

/-! ## `extractSnippet` (embeddings.ts) -/

/-- `hay.indexOf(needle)` as an option (JS returns `-1` on a miss). -/
def strIndexOfAux (needle : List Char) : List Char → Option ℕ
  | [] => if needle.isEmpty then some 0 else none
  | c :: t =>
    if needle.isPrefixOf (c :: t) then some 0
    else (strIndexOfAux needle t).map (· + 1)

/-- `s.substring(start, stop)` (both clamped, `start ≤ stop` here). -/
def jsSubstring (s : List Char) (start stop : ℕ) : List Char :=
  (s.take stop).drop start

/-- `s.trim()`. -/
def jsTrim (s : List Char) : List Char :=
  (((s.dropWhile Char.isWhitespace).reverse.dropWhile Char.isWhitespace).reverse)

/-- The first-match scan of `extractSnippet`: walk the query terms in
order, keeping the strictly earliest occurrence in the lower-cased
text together with the matched term's length. -/
def findEarliestMatch (hay : List Char) (terms : List String) : Option (ℕ × ℕ) :=
  terms.foldl
    (fun st term =>
      match strIndexOfAux term.data hay with
      | some pos =>
        match st with
        | some best => if pos < best.1 then some (pos, term.length) else some best
        | none => some (pos, term.length)
      | none => st)
    none

/-- `extractSnippet(fullText, query)` from embeddings.ts. -/
def extractSnippet (fullText query : String) : String :=
  let snippetRadius : ℕ := 150
  let chars := fullText.data
  let queryTerms := wordsOf query
  let beginning :=
    (jsSubstring chars 0 (snippetRadius * 2)).asString ++
      (if snippetRadius * 2 < chars.length then "..." else "")
  if queryTerms.isEmpty || chars.isEmpty then beginning
  else
    match findEarliestMatch (chars.map Char.toLower) queryTerms with
    | none => beginning
    | some (matchPosition, matchLength) =>
      let snippetStart := matchPosition - snippetRadius
      let snippetEnd := min chars.length (matchPosition + matchLength + snippetRadius)
      let snippet := jsSubstring chars snippetStart snippetEnd
      let snippet := if 0 < snippetStart then "...".data ++ snippet else snippet
      let snippet := if snippetEnd < chars.length then snippet ++ "...".data else snippet
      (jsTrim snippet).asString

/-! ## Database rows (migration.sql) and `hybridSearch` (embeddings.ts)

The relational store is modelled as in-memory lists of rows.  A stored
pgvector value is modelled as the real vector it denotes; `<->` is the
L2 distance. -/

/-- The `DocumentStatus` enum of the schema. -/
inductive DocStatus
  | UPLOADED
  | PROCESSING
  | OCR_COMPLETE
  | INDEXED
  | READY
  | ERROR
  deriving DecidableEq, Repr

/-- A row of the `documents` table (the columns the pipeline and the
search read). -/
structure DocumentRow where
  id : String
  user_id : String
  filename : String
  original_filename : String
  file_type : String
  upload_date : ℤ
  status : DocStatus

/-- A row of the `vectors` table.  The schema has no uniqueness
constraint on `(document_id, page_number)`: only the surrogate primary
key `id` and a non-unique index on `document_id`. -/
structure VectorRow where
  document_id : String
  page_number : ℤ
  dense_vector : ℕ → ℝ
  sparse_vector : List (String × ℝ)
  text_content : String

/-- A row of the `tags` table. -/
structure TagRow where
  id : String
  name : String
  user_id : String

/-- A row of the `document_tags` link table. -/
structure DocumentTagRow where
  document_id : String
  tag_id : String

/-- The tables touched by the search and the pipeline. -/
structure Database where
  documents : List DocumentRow
  vectors : List VectorRow
  tags : List TagRow
  document_tags : List DocumentTagRow

/-- `SearchFilters` from embeddings.ts; dates are timestamps. -/
structure SearchFilters where
  date_from : Option ℤ := none
  date_to : Option ℤ := none
  document_type : Option String := none
  tags : Option (List String) := none

/-- `SearchResult` from embeddings.ts. -/
structure SearchResult where
  document_id : String
  filename : String
  upload_date : ℤ
  file_type : String
  relevance_score : ℝ
  snippet : String
  page_number : ℤ

/-- The optional WHERE clauses added for `filters` (date range,
document type, tag membership via the `document_tags`/`tags` join). -/
def matchesFilters (db : Database) (f : SearchFilters) (d : DocumentRow) : Bool :=
  (match f.date_from with
   | some t => t ≤ d.upload_date
   | none => true) &&
  (match f.date_to with
   | some t => d.upload_date ≤ t
   | none => true) &&
  (match f.document_type with
   | some ty => d.file_type = ty
   | none => true) &&
  (match f.tags with
   | some names =>
     if names.isEmpty then true
     else db.document_tags.any (fun dt =>
       dt.document_id = d.id &&
         db.tags.any (fun t => t.id = dt.tag_id && names.contains t.name))
   | none => true)

/-- pgvector `<->`: L2 distance over the 1536 dimensions. -/
noncomputable def l2dist (a b : ℕ → ℝ) : ℝ :=
  Real.sqrt (∑ p ∈ Finset.range denseDim, (a p - b p) ^ 2)

/-- A row of the `ranked_vectors` CTE (before the window ranking). -/
structure RankedVector where
  document_id : String
  page_number : ℤ
  text_content : String
  sparse_vector : List (String × ℝ)
  original_filename : String
  upload_date : ℤ
  file_type : String
  dense_distance : ℝ

/-- The CTE body: `vectors INNER JOIN documents` restricted to
`d.user_id = $2 AND d.status = 'READY'` and the optional filters, with
the dense distance computed against the query vector. -/
noncomputable def candidateRows (db : Database) (qDense : ℕ → ℝ) (userId : String)
    (f : SearchFilters) : List RankedVector :=
  db.vectors.foldr
    (fun v acc =>
      ((db.documents.filter (fun d =>
          d.id = v.document_id && d.user_id = userId &&
            d.status = DocStatus.READY && matchesFilters db f d)).map
        (fun d =>
          { document_id := v.document_id
            page_number := v.page_number
            text_content := v.text_content
            sparse_vector := v.sparse_vector
            original_filename := d.original_filename
            upload_date := d.upload_date
            file_type := d.file_type
            dense_distance := l2dist v.dense_vector qDense })) ++ acc)
    []

/-- The row of minimal dense distance among `r :: rs` (the earliest on
ties — one admissible resolution of the SQL window ordering). -/
noncomputable def minByDistance (r : RankedVector) (rs : List RankedVector) : RankedVector :=
  rs.foldl (fun best x => if x.dense_distance < best.dense_distance then x else best) r

/-- The distinct document ids of a candidate row list, in first-seen
order of the partition keys. -/
def docIdsOf (rows : List RankedVector) : List String :=
  (rows.map (fun r => r.document_id)).dedup

/-- `WHERE rank = 1`: for each document id keep exactly its
lowest-dense-distance candidate row. -/
noncomputable def bestPerDocument (rows : List RankedVector) : List RankedVector :=
  (docIdsOf rows).filterMap
    (fun docId =>
      match rows.filter (fun r => r.document_id = docId) with
      | [] => none
      | r :: rs => some (minByDistance r rs))

/-- Insertion step of the sort used to model `ORDER BY` and `sort`. -/
def insertSorted (le : α → α → Bool) (x : α) : List α → List α
  | [] => [x]
  | y :: ys => if le x y then x :: y :: ys else y :: insertSorted le x ys

/-- Insertion sort by a boolean comparison. -/
def sortByRel (le : α → α → Bool) : List α → List α
  | [] => []
  | x :: xs => insertSorted le x (sortByRel le xs)

/-- `ORDER BY dense_distance LIMIT 100` over the rank-1 rows. -/
noncomputable def topRankedRows (db : Database) (qDense : ℕ → ℝ) (userId : String)
    (f : SearchFilters) : List RankedVector :=
  (sortByRel (fun a b => decide (a.dense_distance ≤ b.dense_distance))
    (bestPerDocument (candidateRows db qDense userId f))).take 100

/-- The JS mapping of a fetched row to a `SearchResult` (hybrid score
and snippet). -/
noncomputable def toSearchResult (query : String) (qSparse : List (String × ℝ))
    (row : RankedVector) : SearchResult :=
  { document_id := row.document_id
    filename := row.original_filename
    upload_date := row.upload_date
    file_type := row.file_type
    relevance_score := hybridScore row.dense_distance qSparse row.sparse_vector
    snippet := extractSnippet row.text_content query
    page_number := row.page_number }

/-- `hybridSearch(query, userId, filters)` from embeddings.ts: CTE,
rank-1 reduction, limit, scoring, and the final sort by descending
relevance score. -/
noncomputable def hybridSearch (db : Database) (query : String) (userId : String)
    (f : SearchFilters) : List SearchResult :=
  let qDense := generateDenseVector query
  let qSparse := generateSparseVector query
  let results := (topRankedRows db qDense userId f).map (toSearchResult query qSparse)
  sortByRel (fun a b => decide (b.relevance_score ≤ a.relevance_score)) results

/-! ## Pipeline state (document-processing.ts / the workflow)

One orchestrator run over one document.  The persisted state is the
document's status, its `processing_status` history (newest record
first, matching the `findFirst … orderBy started_at desc` access
pattern), and the `vectors` table rows.  Errors carry the Temporal
failure data: message, failure type, and the non-retryable flag
(`new Error(...)` throws a generic retryable failure of type
`Error`; `ApplicationFailure.create` sets type and flag explicitly). -/

/-- The `ProcessingStage` enum of the schema. -/
inductive Stage
  | FILE_RECEIVED
  | PDF_CONVERSION
  | OCR_EXTRACTION
  | VECTORIZATION
  | INDEXING_COMPLETE
  deriving DecidableEq, Repr

/-- A `processing_status` row (per-run fields). -/
structure StatusRecord where
  stage : Stage
  completed : Bool
  error_message : Option String
  retry_count : ℕ
  deriving DecidableEq, Repr

/-- The mutable persisted state one orchestrator run touches. -/
structure PipelineState where
  status : DocStatus
  records : List StatusRecord
  vectors : List VectorRow

/-- A thrown JS failure as Temporal sees it. -/
structure AppError where
  message : String
  errType : String
  nonRetryable : Bool
  deriving DecidableEq, Repr

/-- `new Error(msg)`: a generic, retryable failure. -/
def jsError (msg : String) : AppError :=
  { message := msg, errType := "Error", nonRetryable := false }

/-- `prisma.processingStatus.create({stage})`. -/
def createRecord (st : Stage) (s : PipelineState) : PipelineState :=
  { s with records :=
      { stage := st, completed := false, error_message := none, retry_count := 0 } :: s.records }

/-- Update the most recent record of a stage (`findFirst` ordered by
`started_at desc`, then `update`); no-op when none exists. -/
def updateLatest (st : Stage) (f : StatusRecord → StatusRecord) :
    List StatusRecord → List StatusRecord
  | [] => []
  | r :: rest => if r.stage = st then f r :: rest else r :: updateLatest st f rest

/-- Set `completed_at` on the latest record of a stage. -/
def completeLatest (st : Stage) (s : PipelineState) : PipelineState :=
  { s with records := updateLatest st (fun r => { r with completed := true }) s.records }

/-- Record an error message and bump `retry_count` on the latest record
of a stage. -/
def failLatest (st : Stage) (msg : String) (s : PipelineState) : PipelineState :=
  let upd := fun (r : StatusRecord) =>
    { r with error_message := some msg, retry_count := r.retry_count + 1 }
  { s with records := updateLatest st upd s.records }

/-- `prisma.documents.update({status})`. -/
def setStatus (st : DocStatus) (s : PipelineState) : PipelineState :=
  { s with status := st }

/-- A page-image path.  The source builds the string
`pagesDir + "/page-" + n + ".png"`; since that encoding of the pair
(directory, page index) is injective and the pipeline only passes the
path around, we model it as the pair itself. -/
abbrev ImagePath := String × ℕ

/-- The external collaborators of one pipeline run: the rasterizer's
page count per source file (`identify`, `parseInt(.. || '1')`) and the
OCR service's text per page image. -/
structure PipelineEnv where
  pdfPages : String → ℕ
  ocr : ImagePath → String

/-- `path.dirname`. -/
def dirname (p : String) : String :=
  let rest := p.data.reverse.dropWhile (fun c => c ≠ '/')
  match rest with
  | [] => "."
  | _ :: t => if t.isEmpty then "/" else t.reverse.asString

/-- `path.extname(p).toLowerCase()`. -/
def lowerExt (p : String) : String :=
  let base := p.data.reverse.takeWhile (fun c => c ≠ '/')
  let beforeDot := base.takeWhile (fun c => c ≠ '.')
  if beforeDot.length = base.length then ""
  else if beforeDot.length + 1 = base.length then ""
  else ('.' :: beforeDot.reverse).map Char.toLower |>.asString

/-- `s.trim()` on strings. -/
def jsTrimStr (s : String) : String :=
  (jsTrim s.data).asString

/-- `convertPdfToImages(documentId, filePath, pageOffset)`: status
record and `PROCESSING` transition, then the extension dispatch — a
PDF yields one page image per rasterized page numbered from the
offset, a pass-through image type yields the single page `offset`, and
any other extension throws the generic `Error` of the source, whose
catch block records the message, bumps the retry counter and drives
the document to `ERROR` before rethrowing. -/
def convertPdfToImages (env : PipelineEnv) (filePath : String) (pageOffset : ℕ)
    (s : PipelineState) : PipelineState × Except AppError (List ImagePath) :=
  let s := setStatus DocStatus.PROCESSING (createRecord Stage.PDF_CONVERSION s)
  let pagesDir := dirname filePath ++ "/pages"
  let ext := lowerExt filePath
  if ext = ".pdf" then
    let paths := (List.range (env.pdfPages filePath)).map (fun i => (pagesDir, pageOffset + i))
    (completeLatest Stage.PDF_CONVERSION s, Except.ok paths)
  else if ext = ".png" ∨ ext = ".jpg" ∨ ext = ".jpeg" then
    (completeLatest Stage.PDF_CONVERSION s, Except.ok [(pagesDir, pageOffset)])
  else
    let e := jsError ("Unsupported file type: " ++ ext)
    (setStatus DocStatus.ERROR (failLatest Stage.PDF_CONVERSION e.message s), Except.error e)

/-- Temporal's activity retry loop for a deterministic activity:
re-run on a retryable failure while attempts remain (the proxy is
configured with `maximumAttempts: 3`); stop at once on a non-retryable
failure.  Also returns the number of attempts consumed. -/
def runWithRetry (act : PipelineState → PipelineState × Except AppError α) :
    ℕ → PipelineState → PipelineState × Except AppError α × ℕ
  | 0, s => ((act s).1, (act s).2, 1)
  | 1, s => ((act s).1, (act s).2, 1)
  | n + 2, s =>
    match act s with
    | (s', Except.ok a) => (s', Except.ok a, 1)
    | (s', Except.error e) =>
      if e.nonRetryable then (s', Except.error e, 1)
      else
        let r := runWithRetry act (n + 1) s'
        (r.1, r.2.1, r.2.2 + 1)

/-- A fetched text page `{pageNumber, text}` (the synthetic metadata
page uses number `-1`, so numbers are integers). -/
abbrev TextPage := ℤ × String

/-- The `vectors` row written for one text page of a document. -/
noncomputable def mkVectorRow (documentId : String) (p : TextPage) : VectorRow :=
  { document_id := documentId
    page_number := p.1
    dense_vector := generateDenseVector p.2
    sparse_vector := generateSparseVector p.2
    text_content := p.2 }

/-- The page loop of `generateVectors`: skip pages whose trimmed text
is empty, otherwise `INSERT INTO vectors …` — a plain insert appended
to the table, with no conflict clause. -/
noncomputable def insertVectors (documentId : String) (pages : List TextPage)
    (vecs : List VectorRow) : List VectorRow :=
  pages.foldl
    (fun acc p => if jsTrimStr p.2 = "" then acc else acc ++ [mkVectorRow documentId p])
    vecs

/-- `generateVectors(textPages, documentId)`: open a `VECTORIZATION`
record, insert a row per non-empty page, close the record.  The catch
block of the source fires only on store failures, which the model's
always-available store never produces. -/
noncomputable def generateVectors (documentId : String) (pages : List TextPage)
    (s : PipelineState) : PipelineState × Except AppError Unit :=
  let s := createRecord Stage.VECTORIZATION s
  let s := { s with vectors := insertVectors documentId pages s.vectors }
  (completeLatest Stage.VECTORIZATION s, Except.ok ())

/-- `indexDocument(documentId)`: write the final status record with an
immediate completion timestamp and mark the document `READY`. -/
def indexDocument (s : PipelineState) : PipelineState × Except AppError Unit :=
  let s := { s with records :=
      { stage := Stage.INDEXING_COMPLETE, completed := true
        error_message := none, retry_count := 0 } :: s.records }
  (setStatus DocStatus.READY s, Except.ok ())

/-- Stage 1 of the workflow: convert every source file in order,
threading the page offset forward by the number of pages each file
produced (files producing no pages are skipped without advancing the
offset).  Conversion is the one fallible activity of the model and
runs under the retry proxy. -/
def convertAll (env : PipelineEnv) :
    List String → ℕ → List ImagePath → PipelineState →
      PipelineState × Except AppError (List ImagePath)
  | [], _, acc, s => (s, Except.ok acc)
  | fp :: rest, offset, acc, s =>
    match runWithRetry (convertPdfToImages env fp offset) 3 s with
    | (s', Except.ok paths, _) =>
      if paths.length = 0 then convertAll env rest offset acc s'
      else convertAll env rest (offset + paths.length) (acc ++ paths) s'
    | (s', Except.error e, _) => (s', Except.error e)

/-- Stage 3 of the workflow: the `metadataText` entries built from the
optional title and notes. -/
def metaTextOf (title notes : Option String) : List String :=
  (match title with
   | some t => if jsTrimStr t = "" then [] else ["Title: " ++ jsTrimStr t]
   | none => []) ++
  (match notes with
   | some t => if jsTrimStr t = "" then [] else ["Notes: " ++ jsTrimStr t]
   | none => [])

/-- `DocumentProcessingWorkflow(documentId, filePaths, title, notes)`:
conversion fan-in, the zero-image check (`ImageConversionError`,
non-retryable), the OCR fan-out over all page images joined into
`textPages` (per-page text is the trimmed OCR service output; the page
number is the join index), the `OCR_COMPLETE` bracket, the
empty-page-list check (`OCRExtractionError`, retryable), the optional
synthetic `-1` page prepended from title/notes, vectorization, and
indexing finalization. -/
noncomputable def DocumentProcessingWorkflow (env : PipelineEnv) (documentId : String)
    (filePaths : List String) (title notes : Option String)
    (s : PipelineState) : PipelineState × Except AppError Unit :=
  match convertAll env filePaths 0 [] s with
  | (s1, Except.error e) => (s1, Except.error e)
  | (s1, Except.ok allImagePaths) =>
    if allImagePaths.length = 0 then
      (s1, Except.error
        { message := "No images generated from documents"
          errType := "ImageConversionError", nonRetryable := true })
    else
      let s2 := createRecord Stage.OCR_EXTRACTION s1
      let textPages : List TextPage :=
        allImagePaths.enum.map (fun ip => ((ip.1 : ℤ), jsTrimStr (env.ocr ip.2)))
      let s3 := completeLatest Stage.OCR_EXTRACTION (setStatus DocStatus.OCR_COMPLETE s2)
      if textPages.length = 0 then
        (s3, Except.error
          { message := "No text extracted from images"
            errType := "OCRExtractionError", nonRetryable := false })
      else
        let metadataText := metaTextOf title notes
        let textPages :=
          if metadataText.length = 0 then textPages
          else ((-1 : ℤ), String.intercalate "\n\n" metadataText) :: textPages
        let s4 := (generateVectors documentId textPages s3).1
        indexDocument s4

/-! ## Mailbox scheduler (`CheckUserEmailsWorkflow`) -/

/-- An element of the batch returned by `getUserEmails`. -/
structure EmailToProcess where
  uid : ℕ
  emailId : String
  subject : String

/-- `Math.max(...emails.map(e => e.uid))` over a non-empty batch. -/
def maxUid (e : EmailToProcess) (es : List EmailToProcess) : ℕ :=
  es.foldl (fun m x => max m x.uid) e.uid

/-- The dispatch loop: `await startChild(...)` per email in order; the
first failed start aborts the workflow. -/
def dispatchLoop (dispatchOk : EmailToProcess → Bool) :
    List EmailToProcess → Except AppError Unit
  | [] => Except.ok ()
  | e :: rest =>
    if dispatchOk e then dispatchLoop dispatchOk rest
    else Except.error (jsError ("failed to start child for " ++ e.emailId))

/-- `CheckUserEmailsWorkflow(userId)` for one tick, given the fetched
batch, the per-email start outcome, and the user's current
`imap_last_uid`; returns the cursor after the tick
(`updateImapLastUid` stores the batch maximum) and the workflow
outcome. -/
def CheckUserEmailsWorkflow (dispatchOk : EmailToProcess → Bool)
    (emails : List EmailToProcess) (lastUid : ℕ) : ℕ × Except AppError Unit :=
  match dispatchLoop dispatchOk emails with
  | Except.error e => (lastUid, Except.error e)
  | Except.ok () =>
    match emails with
    | [] => (lastUid, Except.ok ())
    | e :: rest => (maxUid e rest, Except.ok ())

/-! ## Derived notions used by the claims -/

/-- A source file the extension dispatch of `convertPdfToImages`
accepts. -/
def supportedFile (f : String) : Prop :=
  lowerExt f = ".pdf" ∨ lowerExt f = ".png" ∨ lowerExt f = ".jpg" ∨ lowerExt f = ".jpeg"

instance (f : String) : Decidable (supportedFile f) := by
  unfold supportedFile; infer_instance

/-- The number of page images a supported file produces. -/
def pagesFor (env : PipelineEnv) (f : String) : ℕ :=
  if lowerExt f = ".pdf" then env.pdfPages f else 1

/-- Total page count over a file list. -/
def totalPages (env : PipelineEnv) (files : List String) : ℕ :=
  (files.map (pagesFor env)).sum

/-! ## Concrete fixtures used by counterexamples and witnesses -/

/-- The initial persisted state of a freshly uploaded document. -/
def initState : PipelineState :=
  { status := DocStatus.UPLOADED, records := [], vectors := [] }

/-- An environment whose rasterizer reports one page per PDF and whose
OCR service returns empty text for every page image. -/
def emptyOcrEnv : PipelineEnv :=
  { pdfPages := fun _ => 1, ocr := fun _ => "" }

/-- An environment with two-page PDFs (OCR output irrelevant). -/
def twoPageEnv : PipelineEnv :=
  { pdfPages := fun _ => 2, ocr := fun _ => "text" }

/-- The seven-distinct-term text used by witnesses: every filtered term
occurs once among 7 terms, so every raw TF-IDF weight is
`log 2 · log 8 = 3 (log 2)² > 1`. -/
def sevenTerms : String := "alpha beta gamma delta epsilon zeta eta"

/-- A `READY` document owned by user `u1`. -/
def readyDoc : DocumentRow :=
  { id := "d1", user_id := "u1", filename := "f.pdf", original_filename := "f.pdf"
    file_type := "application/pdf", upload_date := 0, status := DocStatus.READY }

/-- One stored page vector for `readyDoc`. -/
noncomputable def readyVec : VectorRow :=
  { document_id := "d1", page_number := 0, dense_vector := fun _ => 0
    sparse_vector := [], text_content := "hello world page" }

/-- A single-document, single-vector store. -/
noncomputable def db1 : Database :=
  { documents := [readyDoc], vectors := [readyVec], tags := [], document_tags := [] }

/-- The empty filter set. -/
def noFilters : SearchFilters := {}

/-- A `PROCESSING` document owned by user `u1`. -/
def processingDoc : DocumentRow :=
  { id := "d2", user_id := "u1", filename := "g.pdf", original_filename := "g.pdf"
    file_type := "application/pdf", upload_date := 0, status := DocStatus.PROCESSING }

/-- A stored page vector for the still-processing document. -/
noncomputable def processingVec : VectorRow :=
  { document_id := "d2", page_number := 0, dense_vector := fun _ => 0
    sparse_vector := [], text_content := "not ready yet" }

/-- A store whose only document is not `READY` but has a vector row. -/
noncomputable def db2 : Database :=
  { documents := [processingDoc], vectors := [processingVec], tags := [],
    document_tags := [] }

end Gnowsis

namespace Gnowsis

/-! # Claim theorems -/

/-! ## C3 — scheduler cursor advancement -/

lemma dispatchLoop_ok (ok : EmailToProcess → Bool) :
    ∀ es : List EmailToProcess, (∀ e ∈ es, ok e = true) →
      dispatchLoop ok es = Except.ok ()
  | [], _ => rfl
  | e :: rest, h => by
    have he := h e (List.mem_cons_self e rest)
    simp only [dispatchLoop, he, if_true]
    exact dispatchLoop_ok ok rest (fun x hx => h x (List.mem_cons_of_mem e hx))

lemma dispatchLoop_err (ok : EmailToProcess → Bool) :
    ∀ es : List EmailToProcess, (∃ e ∈ es, ok e = false) →
      ∃ err, dispatchLoop ok es = Except.error err
  | e :: rest, h => by
    by_cases he : ok e = true
    · simp only [dispatchLoop, he, if_true]
      apply dispatchLoop_err ok rest
      rcases h with ⟨x, hx, hxf⟩
      rcases List.mem_cons.mp hx with rfl | hx'
      · exact absurd he (by simp [hxf])
      · exact ⟨x, hx', hxf⟩
    · exact ⟨jsError ("failed to start child for " ++ e.emailId), by simp [dispatchLoop, he]⟩

lemma foldl_max_le (es : List EmailToProcess) :
    ∀ a : ℕ, a ≤ es.foldl (fun m x => max m x.uid) a ∧
      ∀ x ∈ es, x.uid ≤ es.foldl (fun m x => max m x.uid) a := by
  induction es with
  | nil => exact fun a => ⟨le_refl a, by simp⟩
  | cons y ys ih =>
    intro a
    have h := ih (max a y.uid)
    refine ⟨le_trans (le_max_left _ _) h.1, ?_⟩
    intro x hx
    rcases List.mem_cons.mp hx with rfl | hx'
    · exact le_trans (le_max_right a x.uid) h.1
    · exact h.2 x hx'

lemma foldl_max_attained (es : List EmailToProcess) :
    ∀ a : ℕ, es.foldl (fun m x => max m x.uid) a = a ∨
      ∃ x ∈ es, es.foldl (fun m x => max m x.uid) a = x.uid := by
  induction es with
  | nil => exact fun a => Or.inl rfl
  | cons y ys ih =>
    intro a
    rcases ih (max a y.uid) with h | ⟨x, hx, hfx⟩
    · rcases max_choice a y.uid with hm | hm
      · exact Or.inl (by rw [List.foldl_cons, h, hm])
      · exact Or.inr ⟨y, List.mem_cons_self y ys, by rw [List.foldl_cons, h, hm]⟩
    · exact Or.inr ⟨x, List.mem_cons_of_mem y hx, hfx⟩

/-- C3: on a scheduler tick, `last_uid` is advanced to the maximum
identifier of the batch only after every message of the batch was
dispatched; if starting the child workflow for any message fails, the
tick aborts with the cursor left unchanged, so the undispatched
messages are re-discovered on the next pass. -/
theorem C3_cursor_advancement (ok : EmailToProcess → Bool) (e₀ : EmailToProcess)
    (es : List EmailToProcess) (lastUid : ℕ) :
    ((∀ e ∈ e₀ :: es, ok e = true) →
      (CheckUserEmailsWorkflow ok (e₀ :: es) lastUid).2 = Except.ok () ∧
      (CheckUserEmailsWorkflow ok (e₀ :: es) lastUid).1 = maxUid e₀ es ∧
      (∀ x ∈ e₀ :: es, x.uid ≤ maxUid e₀ es) ∧
      (∃ x ∈ e₀ :: es, maxUid e₀ es = x.uid)) ∧
    ((∃ e ∈ e₀ :: es, ok e = false) →
      (CheckUserEmailsWorkflow ok (e₀ :: es) lastUid).1 = lastUid ∧
      ∃ err, (CheckUserEmailsWorkflow ok (e₀ :: es) lastUid).2 = Except.error err) := by
  constructor
  · intro hall
    have hd := dispatchLoop_ok ok (e₀ :: es) hall
    have hle := foldl_max_le es e₀.uid
    have hat := foldl_max_attained es e₀.uid
    refine ⟨by simp [CheckUserEmailsWorkflow, hd], by simp [CheckUserEmailsWorkflow, hd], ?_, ?_⟩
    · intro x hx
      rcases List.mem_cons.mp hx with rfl | hx'
      · exact hle.1
      · exact hle.2 x hx'
    · rcases hat with h | ⟨x, hx, hfx⟩
      · exact ⟨e₀, List.mem_cons_self e₀ es, h⟩
      · exact ⟨x, List.mem_cons_of_mem e₀ hx, hfx⟩
  · intro hex
    obtain ⟨err, herr⟩ := dispatchLoop_err ok (e₀ :: es) hex
    exact ⟨by simp [CheckUserEmailsWorkflow, herr], err, by simp [CheckUserEmailsWorkflow, herr]⟩

/-- Witness for C3: the spec's scenario — `last_uid = 10`, batch uids
`[11, 12, 13]`, the dispatch of uid 12 fails; the cursor stays 10 and
the tick aborts. -/
theorem C3_cursor_advancement_witness :
    (CheckUserEmailsWorkflow (fun e => !(e.uid = 12 : Bool))
        [⟨11, "m11", "s"⟩, ⟨12, "m12", "s"⟩, ⟨13, "m13", "s"⟩] 10).1 = 10 ∧
    ∃ err, (CheckUserEmailsWorkflow (fun e => !(e.uid = 12 : Bool))
        [⟨11, "m11", "s"⟩, ⟨12, "m12", "s"⟩, ⟨13, "m13", "s"⟩] 10).2 = Except.error err :=
  (C3_cursor_advancement (fun e => !(e.uid = 12 : Bool)) ⟨11, "m11", "s"⟩
      [⟨12, "m12", "s"⟩, ⟨13, "m13", "s"⟩] 10).2
    ⟨⟨12, "m12", "s"⟩, by simp, by decide⟩

/-! ## C4 — contiguous page numbering across files -/

lemma runWithRetry_of_ok {α : Type} (act : PipelineState → PipelineState × Except AppError α)
    (s s' : PipelineState) (a : α) (h : act s = (s', Except.ok a)) :
    ∀ n, runWithRetry act n s = (s', Except.ok a, 1) := by
  intro n
  match n with
  | 0 => simp [runWithRetry, h]
  | 1 => simp [runWithRetry, h]
  | n + 2 => simp [runWithRetry, h]

lemma convertPdfToImages_ok (env : PipelineEnv) (fp : String) (offset : ℕ)
    (s : PipelineState) (h : supportedFile fp) :
    convertPdfToImages env fp offset s =
      (completeLatest Stage.PDF_CONVERSION
          (setStatus DocStatus.PROCESSING (createRecord Stage.PDF_CONVERSION s)),
        Except.ok ((List.range (pagesFor env fp)).map
          (fun i => (dirname fp ++ "/pages", offset + i)))) := by
  rcases h with h | h | h | h
  · simp [convertPdfToImages, pagesFor, h]
  all_goals
    simp [convertPdfToImages, pagesFor, h, List.range_succ]

lemma convertAll_ok (env : PipelineEnv) :
    ∀ (files : List String) (offset : ℕ) (acc : List ImagePath) (s : PipelineState),
      (∀ f ∈ files, supportedFile f) →
      ∃ s' ps, convertAll env files offset acc s = (s', Except.ok ps) ∧
        ps.map Prod.snd =
          acc.map Prod.snd ++ (List.range (totalPages env files)).map (offset + ·) := by
  intro files
  induction files with
  | nil =>
    intro offset acc s _
    exact ⟨s, acc, rfl, by simp [totalPages]⟩
  | cons f rest ih =>
    intro offset acc s hsup
    have hf := hsup f (List.mem_cons_self f rest)
    have hrest : ∀ g ∈ rest, supportedFile g :=
      fun g hg => hsup g (List.mem_cons_of_mem f hg)
    have hconv := convertPdfToImages_ok env f offset s hf
    have hrun := runWithRetry_of_ok (convertPdfToImages env f offset) s _ _ hconv 3
    set s₁ := completeLatest Stage.PDF_CONVERSION
      (setStatus DocStatus.PROCESSING (createRecord Stage.PDF_CONVERSION s)) with hs₁
    by_cases hz : pagesFor env f = 0
    · obtain ⟨s', ps, heq, hmap⟩ := ih offset acc s₁ hrest
      refine ⟨s', ps, ?_, ?_⟩
      · simp only [convertAll, hrun]
        simp [hz, heq]
      · rw [hmap]
        simp [totalPages, hz]
    · obtain ⟨s', ps, heq, hmap⟩ :=
        ih (offset + pagesFor env f)
          (acc ++ (List.range (pagesFor env f)).map
            (fun i => (dirname f ++ "/pages", offset + i))) s₁ hrest
      refine ⟨s', ps, ?_, ?_⟩
      · simp only [convertAll, hrun]
        simp [hz, heq]
      · rw [hmap]
        have h1 : totalPages env (f :: rest) = pagesFor env f + totalPages env rest := by
          simp [totalPages]
        rw [h1, List.range_add]
        simp [List.map_append, List.map_map, List.append_assoc, Function.comp,
          Nat.add_assoc]

/-- C4: for every multi-file upload consisting of supported files, the
page numbers assigned by the conversion stage across all files are
exactly `0, 1, …, total − 1`: contiguous, strictly increasing with
file order, the offset threaded forward by the count of pages already
produced by earlier files. -/
theorem C4_contiguous_page_numbers (env : PipelineEnv) (files : List String)
    (s : PipelineState) (h : ∀ f ∈ files, supportedFile f) :
    ∃ s' ps, convertAll env files 0 [] s = (s', Except.ok ps) ∧
      ps.map Prod.snd = List.range (totalPages env files) := by
  obtain ⟨s', ps, heq, hmap⟩ := convertAll_ok env files 0 [] s h
  refine ⟨s', ps, heq, ?_⟩
  rw [hmap]
  simp

/-- Witness for C4: a two-page PDF followed by an image file produces
pages numbered `[0, 1, 2]`. -/
theorem C4_contiguous_page_numbers_witness :
    ∃ s' ps, convertAll twoPageEnv ["/up/a.pdf", "/up/b.png"] 0 [] initState =
        (s', Except.ok ps) ∧ ps.map Prod.snd = List.range 3 := by
  have h := C4_contiguous_page_numbers twoPageEnv ["/up/a.pdf", "/up/b.png"] initState
    (by decide)
  simpa using h

/-! ## C9 — failure classification of unsupported file types -/

lemma convertPdfToImages_unsupported (env : PipelineEnv) (fp : String) (offset : ℕ)
    (s : PipelineState) (h : ¬ supportedFile fp) :
    convertPdfToImages env fp offset s =
      (setStatus DocStatus.ERROR
          (failLatest Stage.PDF_CONVERSION ("Unsupported file type: " ++ lowerExt fp)
            (setStatus DocStatus.PROCESSING (createRecord Stage.PDF_CONVERSION s))),
        Except.error (jsError ("Unsupported file type: " ++ lowerExt fp))) := by
  unfold supportedFile at h
  push_neg at h
  obtain ⟨h1, h2, h3, h4⟩ := h
  simp [convertPdfToImages, h1, h2, h3, h4, jsError]

/-- C9 amended: an unsupported source file type makes
`convertPdfToImages` throw the generic `Error` with message
`Unsupported file type: <ext>` — a *retryable* failure (the
non-retryable flag is not set and the type is not
`UnsupportedFormat`), so the retry policy re-runs the activity, using
all 3 attempts; the document is driven to `ERROR` along the way. -/
theorem C9_unsupported_format_retryable (env : PipelineEnv) (fp : String) (offset : ℕ)
    (s : PipelineState) (h : ¬ supportedFile fp) :
    (runWithRetry (convertPdfToImages env fp offset) 3 s).2.1 =
      Except.error (jsError ("Unsupported file type: " ++ lowerExt fp)) ∧
    (runWithRetry (convertPdfToImages env fp offset) 3 s).2.2 = 3 ∧
    (jsError ("Unsupported file type: " ++ lowerExt fp)).nonRetryable = false ∧
    (jsError ("Unsupported file type: " ++ lowerExt fp)).errType ≠ "UnsupportedFormat" ∧
    (runWithRetry (convertPdfToImages env fp offset) 3 s).1.status = DocStatus.ERROR := by
  have hc : ∀ s' : PipelineState, convertPdfToImages env fp offset s' =
      (setStatus DocStatus.ERROR
          (failLatest Stage.PDF_CONVERSION ("Unsupported file type: " ++ lowerExt fp)
            (setStatus DocStatus.PROCESSING (createRecord Stage.PDF_CONVERSION s'))),
        Except.error (jsError ("Unsupported file type: " ++ lowerExt fp))) :=
    fun s' => convertPdfToImages_unsupported env fp offset s' h
  have h1 : ∀ s' : PipelineState,
      runWithRetry (convertPdfToImages env fp offset) 1 s' =
        ((convertPdfToImages env fp offset s').1,
          Except.error (jsError ("Unsupported file type: " ++ lowerExt fp)), 1) := by
    intro s'
    simp [runWithRetry, hc s']
  have h2 : ∀ s' : PipelineState,
      runWithRetry (convertPdfToImages env fp offset) 2 s' =
        ((convertPdfToImages env fp offset ((convertPdfToImages env fp offset s').1)).1,
          Except.error (jsError ("Unsupported file type: " ++ lowerExt fp)), 2) := by
    intro s'
    show runWithRetry (convertPdfToImages env fp offset) (0 + 2) s' = _
    rw [runWithRetry, hc s']
    simp [jsError, h1]
  have h3 : runWithRetry (convertPdfToImages env fp offset) 3 s =
      ((convertPdfToImages env fp offset
          ((convertPdfToImages env fp offset
            ((convertPdfToImages env fp offset s).1)).1)).1,
        Except.error (jsError ("Unsupported file type: " ++ lowerExt fp)), 3) := by
    show runWithRetry (convertPdfToImages env fp offset) (1 + 2) s = _
    rw [runWithRetry, hc s]
    simp [jsError, h2]
  refine ⟨by rw [h3], by rw [h3], rfl, by simp [jsError], ?_⟩
  rw [h3]
  simp [hc, setStatus]

/-- Witness for C9 amended: a `.txt` upload burns all three attempts
with the retryable generic error and ends at `ERROR`. -/
theorem C9_unsupported_format_retryable_witness :
    (runWithRetry (convertPdfToImages emptyOcrEnv "/up/doc.txt" 0) 3 initState).2.1 =
      Except.error (jsError ("Unsupported file type: " ++ lowerExt "/up/doc.txt")) ∧
    (runWithRetry (convertPdfToImages emptyOcrEnv "/up/doc.txt" 0) 3 initState).2.2 = 3 ∧
    (jsError ("Unsupported file type: " ++ lowerExt "/up/doc.txt")).nonRetryable = false ∧
    (jsError ("Unsupported file type: " ++ lowerExt "/up/doc.txt")).errType ≠
      "UnsupportedFormat" ∧
    (runWithRetry (convertPdfToImages emptyOcrEnv "/up/doc.txt" 0) 3 initState).1.status =
      DocStatus.ERROR :=
  C9_unsupported_format_retryable emptyOcrEnv "/up/doc.txt" 0 initState (by decide)

/-- Counterexample for C9 as stated: the failure thrown for the
unsupported type `.txt` is *not* a non-retryable `UnsupportedFormat`
failure — its type is the generic `Error`, its non-retryable flag is
false, and the retry policy does attempt retries (3 attempts are
consumed, not 1). -/
theorem C9_unsupported_format_counterexample :
    (runWithRetry (convertPdfToImages emptyOcrEnv "/up/doc.txt" 0) 3 initState).2.1 =
      Except.error (jsError "Unsupported file type: .txt") ∧
    (jsError "Unsupported file type: .txt").nonRetryable = false ∧
    (jsError "Unsupported file type: .txt").errType = "Error" ∧
    (runWithRetry (convertPdfToImages emptyOcrEnv "/up/doc.txt" 0) 3 initState).2.2 = 3 :=
  ⟨rfl, rfl, rfl, rfl⟩

/-! ## C1 — all pages OCR-empty does not fail the document -/

lemma insertVectors_all_empty (d : String) :
    ∀ pages : List TextPage, (∀ p ∈ pages, jsTrimStr p.2 = "") →
      ∀ vecs, insertVectors d pages vecs = vecs
  | [], _, vecs => rfl
  | p :: rest, h, vecs => by
    have hp := h p (List.mem_cons_self p rest)
    have hrest := fun x hx => h x (List.mem_cons_of_mem p hx)
    simp only [insertVectors, List.foldl_cons, hp, if_pos]
    exact insertVectors_all_empty d rest hrest vecs

/-- C1 amended: when the conversion stage succeeds with a non-empty
page-image list and the OCR service returns empty text for every page
(and there is no synthetic title/notes page), the workflow does *not*
fail with `OCRExtractionError`: every page is skipped at
vectorization, no `PageVector` row is written, and the document
completes with status `READY` — the `OCRExtractionError` throw is
reachable only for an empty joined page list. -/
theorem C1_empty_ocr_reaches_ready (env : PipelineEnv) (dId : String)
    (files : List String) (title notes : Option String) (s s₁ : PipelineState)
    (ps : List ImagePath)
    (hconv : convertAll env files 0 [] s = (s₁, Except.ok ps)) (hne : ps ≠ [])
    (hocr : ∀ p ∈ ps, jsTrimStr (env.ocr p) = "")
    (hmeta : metaTextOf title notes = []) :
    (DocumentProcessingWorkflow env dId files title notes s).1.status = DocStatus.READY ∧
    (DocumentProcessingWorkflow env dId files title notes s).2 = Except.ok () ∧
    (DocumentProcessingWorkflow env dId files title notes s).1.vectors = s₁.vectors := by
  have hlen : ¬ ps.length = 0 := by simpa [List.length_eq_zero] using hne
  have hpages : ∀ p ∈ ps.enum.map (fun ip => ((ip.1 : ℤ), jsTrimStr (env.ocr ip.2))),
      jsTrimStr p.2 = "" := by
    intro p hp
    obtain ⟨ip, hip, rfl⟩ := List.mem_map.mp hp
    rw [hocr ip.2 (List.snd_mem_of_mem_enum hip)]
    rfl
  have hins := insertVectors_all_empty dId _ hpages
  simp only [DocumentProcessingWorkflow, hconv]
  simp [hlen, hmeta, generateVectors, hins, indexDocument, completeLatest, setStatus,
    createRecord]

/-- Witness for C1 amended: a one-page PDF whose single page OCRs to
empty text ends `READY` with no vectors. -/
theorem C1_empty_ocr_reaches_ready_witness :
    (DocumentProcessingWorkflow emptyOcrEnv "doc1" ["/up/doc.pdf"] none none
        initState).1.status = DocStatus.READY ∧
    (DocumentProcessingWorkflow emptyOcrEnv "doc1" ["/up/doc.pdf"] none none
        initState).2 = Except.ok () ∧
    (DocumentProcessingWorkflow emptyOcrEnv "doc1" ["/up/doc.pdf"] none none
        initState).1.vectors =
      (completeLatest Stage.PDF_CONVERSION
          (setStatus DocStatus.PROCESSING
            (createRecord Stage.PDF_CONVERSION initState))).vectors :=
  C1_empty_ocr_reaches_ready emptyOcrEnv "doc1" ["/up/doc.pdf"] none none initState _
    [("/up/pages", 0)] rfl (by decide) (by decide) rfl

/-- Counterexample for C1 as stated: a document whose only page OCRs
to empty text does not get status `ERROR` and no `OCRExtractionError`
is raised — the run completes with status `READY`, no vector rows
written. -/
theorem C1_empty_ocr_counterexample :
    (DocumentProcessingWorkflow emptyOcrEnv "doc1" ["/up/doc.pdf"] none none
        initState).1.status = DocStatus.READY ∧
    (DocumentProcessingWorkflow emptyOcrEnv "doc1" ["/up/doc.pdf"] none none
        initState).2 = Except.ok () ∧
    (DocumentProcessingWorkflow emptyOcrEnv "doc1" ["/up/doc.pdf"] none none
        initState).1.vectors = [] :=
  ⟨rfl, rfl, rfl⟩

/-! ## C2 — PageVector uniqueness and overwrite-on-re-run -/

/-- C2 amended: re-running vectorization for an already-processed page
with identical text does not overwrite — the plain `INSERT` (the
`vectors` table has no uniqueness constraint on
`(document_id, page_number)`) appends a second, identical row, and the
previously stored row is left untouched. -/
theorem C2_rerun_appends_duplicate (dId : String) (p : TextPage) (s : PipelineState)
    (h : ¬ jsTrimStr p.2 = "") :
    ((generateVectors dId [p] ((generateVectors dId [p] s).1)).1).vectors =
      (s.vectors ++ [mkVectorRow dId p]) ++ [mkVectorRow dId p] := by
  simp [generateVectors, insertVectors, h, completeLatest, createRecord]

/-- Witness for C2 amended: running `generateVectors` twice for page 0
with text "hi" leaves two identical rows. -/
theorem C2_rerun_appends_duplicate_witness :
    ((generateVectors "doc1" [((0 : ℤ), "hi")]
        ((generateVectors "doc1" [((0 : ℤ), "hi")] initState).1)).1).vectors =
      (initState.vectors ++ [mkVectorRow "doc1" ((0 : ℤ), "hi")]) ++
        [mkVectorRow "doc1" ((0 : ℤ), "hi")] :=
  C2_rerun_appends_duplicate "doc1" ((0 : ℤ), "hi") initState (by decide)

/-- Counterexample for C2 as stated: after re-running vectorization for
the same page of the same document, the store holds *two*
`PageVector` rows for `(doc1, 0)` — the "at most one row per
(document, page number)" invariant fails and nothing was
overwritten. -/
theorem C2_duplicate_rows_counterexample :
    (((generateVectors "doc1" [((0 : ℤ), "hello world")]
          ((generateVectors "doc1" [((0 : ℤ), "hello world")] initState).1)).1).vectors.filter
        (fun r => r.document_id == "doc1" && r.page_number == 0)).length = 2 := by
  rfl

/-! ## C6 — sparse weight normalization -/

lemma rawWeight_nonneg (text t : String) : 0 ≤ rawWeight text t := by
  unfold rawWeight tfScore idfApprox
  apply mul_nonneg
  · apply Real.log_nonneg
    have : (0 : ℝ) ≤ (termFrequency text t : ℝ) := Nat.cast_nonneg _
    linarith
  · apply Real.log_nonneg
    have : (0 : ℝ) ≤ (totalTerms text : ℝ) / (termFrequency text t : ℝ) :=
      div_nonneg (Nat.cast_nonneg _) (Nat.cast_nonneg _)
    linarith

lemma foldr_max_init (l : List ℝ) (a : ℝ) : a ≤ l.foldr max a := by
  induction l with
  | nil => exact le_refl a
  | cons x xs ih => exact le_trans ih (le_max_right x _)

lemma foldr_max_mem (l : List ℝ) (a x : ℝ) (hx : x ∈ l) : x ≤ l.foldr max a := by
  induction l with
  | nil => cases hx
  | cons y ys ih =>
    rcases List.mem_cons.mp hx with rfl | h
    · exact le_max_left x _
    · exact le_trans (ih h) (le_max_right y _)

lemma foldr_max_choice (l : List ℝ) (a : ℝ) : l.foldr max a = a ∨ l.foldr max a ∈ l := by
  induction l with
  | nil => exact Or.inl rfl
  | cons y ys ih =>
    rcases max_choice y (ys.foldr max a) with h | h
    · exact Or.inr (by rw [List.foldr_cons, h]; exact List.mem_cons_self y ys)
    · rcases ih with h' | h'
      · exact Or.inl (by rw [List.foldr_cons, h, h'])
      · exact Or.inr (by rw [List.foldr_cons, h]; exact List.mem_cons_of_mem y h')

lemma one_le_maxWeightDivisor (text : String) : 1 ≤ maxWeightDivisor text :=
  foldr_max_init _ 1

lemma rawWeight_le_divisor (text t : String) (ht : t ∈ sparseTerms text) :
    rawWeight text t ≤ maxWeightDivisor text :=
  foldr_max_mem _ 1 _ (List.mem_map_of_mem (rawWeight text) ht)

lemma sparseWeight_nonneg (text t : String) : 0 ≤ sparseWeight text t :=
  div_nonneg (rawWeight_nonneg text t)
    (le_trans zero_le_one (one_le_maxWeightDivisor text))

lemma sparseWeight_le_one (text t : String) (ht : t ∈ sparseTerms text) :
    sparseWeight text t ≤ 1 := by
  rw [sparseWeight, div_le_one (lt_of_lt_of_le zero_lt_one (one_le_maxWeightDivisor text))]
  exact rawWeight_le_divisor text t ht

lemma sparseVector_weights_bounded (text : String) :
    ∀ p ∈ generateSparseVector text, 0 ≤ p.2 ∧ p.2 ≤ 1 := by
  intro p hp
  obtain ⟨t, ht, rfl⟩ := List.mem_map.mp hp
  exact ⟨sparseWeight_nonneg text t, sparseWeight_le_one text t ht⟩

/-- C6 amended: every weight produced by `generateSparseVector` lies in
`[0, 1]`, and the maximum weight equals `1.0` exactly when some raw
TF-IDF weight reaches `1` (the divisor is `max(weights…, 1)`, never
below 1); for short texts whose raw weights all stay below 1 the
maximum stored weight stays below `1.0`. -/
theorem C6_sparse_normalization (text : String) :
    (∀ p ∈ generateSparseVector text, 0 ≤ p.2 ∧ p.2 ≤ 1) ∧
    ((∃ t ∈ sparseTerms text, 1 ≤ rawWeight text t) →
      ∃ p ∈ generateSparseVector text, p.2 = 1) := by
  refine ⟨sparseVector_weights_bounded text, ?_⟩
  rintro ⟨t0, ht0, hraw⟩
  rcases foldr_max_choice ((sparseTerms text).map (rawWeight text)) 1 with h | h
  · refine ⟨(t0, sparseWeight text t0), List.mem_map_of_mem _ ht0, ?_⟩
    have hdiv : maxWeightDivisor text = 1 := h
    have hle : rawWeight text t0 ≤ 1 := by
      have := rawWeight_le_divisor text t0 ht0
      rwa [hdiv] at this
    show sparseWeight text t0 = 1
    rw [sparseWeight, hdiv, div_one]
    linarith
  · obtain ⟨t1, ht1, heq⟩ := List.mem_map.mp h
    refine ⟨(t1, sparseWeight text t1), List.mem_map_of_mem _ ht1, ?_⟩
    show sparseWeight text t1 = 1
    have hpos : (0 : ℝ) < maxWeightDivisor text :=
      lt_of_lt_of_le zero_lt_one (one_le_maxWeightDivisor text)
    rw [sparseWeight, heq]
    exact div_self (ne_of_gt hpos)

lemma sevenTerms_freq : ∀ t ∈ sparseTerms sevenTerms, termFrequency sevenTerms t = 1 := by
  decide

lemma sevenTerms_raw : ∀ t ∈ sparseTerms sevenTerms,
    rawWeight sevenTerms t = Real.log 2 * Real.log 8 := by
  intro t ht
  unfold rawWeight tfScore idfApprox
  rw [sevenTerms_freq t ht, show totalTerms sevenTerms = 7 from rfl]
  norm_num

lemma log2_log8_gt_one : 1 < Real.log 2 * Real.log 8 := by
  have h8 : Real.log 8 = 3 * Real.log 2 := by
    rw [show (8 : ℝ) = 2 ^ 3 by norm_num, Real.log_pow]
    push_cast
    ring
  have hgt := Real.log_two_gt_d9
  rw [h8]
  nlinarith

/-- Witness for C6: on the seven-term text some raw weight reaches 1,
and the normalized map indeed attains the maximum weight `1.0`. -/
theorem C6_sparse_normalization_witness :
    (∃ t ∈ sparseTerms sevenTerms, 1 ≤ rawWeight sevenTerms t) ∧
    ∃ p ∈ generateSparseVector sevenTerms, p.2 = 1 := by
  have hex : ∃ t ∈ sparseTerms sevenTerms, 1 ≤ rawWeight sevenTerms t := by
    refine ⟨"alpha", by decide, ?_⟩
    rw [sevenTerms_raw "alpha" (by decide)]
    exact le_of_lt log2_log8_gt_one
  exact ⟨hex, (C6_sparse_normalization sevenTerms).2 hex⟩

/-- Counterexample for C6 as stated: for the text `"cat"` the sparse
map is non-empty but its (unique) weight is `(log 2)² ≈ 0.48`, far
from `1.0` — the divisor `max(…, 1)` clamps at 1, so the maximum
weight is *not* 1 within any floating tolerance. -/
theorem C6_max_weight_counterexample :
    generateSparseVector "cat" ≠ [] ∧ ∀ p ∈ generateSparseVector "cat", p.2 < 1 := by
  have hterms : sparseTerms "cat" = ["cat"] := rfl
  have hraw : rawWeight "cat" "cat" = Real.log 2 * Real.log 2 := by
    unfold rawWeight tfScore idfApprox
    rw [show termFrequency "cat" "cat" = 1 from rfl, show totalTerms "cat" = 1 from rfl]
    norm_num
  have hlt : Real.log 2 * Real.log 2 < 1 := by
    have h2 := Real.log_two_lt_d9
    have h0 := Real.log_nonneg (by norm_num : (1 : ℝ) ≤ 2)
    nlinarith
  constructor
  · simp [generateSparseVector, hterms]
  · intro p hp
    rw [generateSparseVector, hterms] at hp
    simp only [List.map_cons, List.map_nil, List.mem_singleton] at hp
    rw [hp]
    show sparseWeight "cat" "cat" < 1
    have hdiv : maxWeightDivisor "cat" = 1 := by
      show (List.map (rawWeight "cat") (sparseTerms "cat")).foldr max 1 = 1
      rw [hterms]
      simp only [List.map_cons, List.map_nil, List.foldr_cons, List.foldr_nil]
      rw [hraw]
      exact max_eq_right (le_of_lt hlt)
    rw [sparseWeight, hdiv, div_one, hraw]
    exact hlt

/-! ## C7 — the fused relevance score bound -/

lemma lookup_mem {v : List (String × ℝ)} {k : String} {w : ℝ}
    (h : v.lookup k = some w) : ∃ p ∈ v, p.2 = w := by
  induction v with
  | nil => cases h
  | cons q rest ih =>
    rcases q with ⟨a, b⟩
    by_cases hk : k == a
    · have hb : b = w := by
        have hsome : some b = some w := by simpa [List.lookup, hk] using h
        injection hsome
      exact ⟨(a, b), List.mem_cons_self _ _, hb⟩
    · have h' : rest.lookup k = some w := by simpa [List.lookup, hk] using h
      obtain ⟨p, hp, hw⟩ := ih h'
      exact ⟨p, List.mem_cons_of_mem _ hp, hw⟩

lemma lookup_all_ones {v : List (String × ℝ)} (hw : ∀ p ∈ v, p.2 = 1) (k : String)
    (hk : ∃ p ∈ v, p.1 = k) : v.lookup k = some 1 := by
  induction v with
  | nil => obtain ⟨p, hp, _⟩ := hk; cases hp
  | cons q rest ih =>
    rcases q with ⟨a, b⟩
    by_cases hak : k == a
    · have hb : b = 1 := hw (a, b) (List.mem_cons_self _ _)
      simp [List.lookup, hak, hb]
    · have hrest : rest.lookup k = some 1 := by
        apply ih (fun p hp => hw p (List.mem_cons_of_mem _ hp))
        obtain ⟨p, hp, hpk⟩ := hk
        rcases List.mem_cons.mp hp with rfl | hp'
        · exact absurd (beq_iff_eq.mpr hpk.symm) hak
        · exact ⟨p, hp', hpk⟩
      simp [List.lookup, hak, hrest]

lemma dot_foldl_ones (v : List (String × ℝ)) :
    ∀ l : List (String × ℝ), (∀ p ∈ l, v.lookup p.1 = some 1 ∧ p.2 = 1) →
      ∀ acc : ℝ,
        l.foldl (fun acc p =>
          match v.lookup p.1 with
          | some w => acc + p.2 * w
          | none => acc) acc = acc + l.length
  | [], _, acc => by simp
  | p :: rest, h, acc => by
    have hp := h p (List.mem_cons_self p rest)
    rw [List.foldl_cons]
    have hstep : (match v.lookup p.1 with
        | some w => acc + p.2 * w
        | none => acc) = acc + 1 := by
      rw [hp.1, hp.2]
      norm_num
    rw [hstep, dot_foldl_ones v rest (fun x hx => h x (List.mem_cons_of_mem p hx))]
    push_cast [List.length_cons]
    ring

lemma sparseDot_self_ones (v : List (String × ℝ)) (hw : ∀ p ∈ v, p.2 = 1) :
    sparseDotProduct v v = v.length := by
  unfold sparseDotProduct
  rw [if_pos (le_refl v.length)]
  rw [dot_foldl_ones v v
    (fun p hp => ⟨lookup_all_ones hw p.1 ⟨p, hp, rfl⟩, hw p hp⟩) 0]
  simp

lemma dot_foldl_le (v : List (String × ℝ)) (hv : ∀ p ∈ v, 0 ≤ p.2 ∧ p.2 ≤ 1) :
    ∀ l : List (String × ℝ), (∀ p ∈ l, 0 ≤ p.2 ∧ p.2 ≤ 1) →
      ∀ acc : ℝ,
        l.foldl (fun acc p =>
          match v.lookup p.1 with
          | some w => acc + p.2 * w
          | none => acc) acc ≤ acc + l.length
  | [], _, acc => by simp
  | p :: rest, h, acc => by
    have hp := h p (List.mem_cons_self p rest)
    rw [List.foldl_cons]
    have hstep : (match v.lookup p.1 with
        | some w => acc + p.2 * w
        | none => acc) ≤ acc + 1 := by
      cases hlk : v.lookup p.1 with
      | none =>
        show acc ≤ acc + 1
        linarith
      | some w =>
        show acc + p.2 * w ≤ acc + 1
        obtain ⟨pp, hpp, hppw⟩ := lookup_mem hlk
        have hwb := hv pp hpp
        rw [hppw] at hwb
        nlinarith [hp.1, hp.2, hwb.1, hwb.2]
    calc (p :: rest).foldl _ acc = rest.foldl _ ((match v.lookup p.1 with
            | some w => acc + p.2 * w
            | none => acc)) := rfl
      _ ≤ (match v.lookup p.1 with
            | some w => acc + p.2 * w
            | none => acc) + rest.length :=
          dot_foldl_le v hv rest (fun x hx => h x (List.mem_cons_of_mem p hx)) _
      _ ≤ acc + 1 + rest.length := by linarith
      _ = acc + (rest.length + 1) := by ring
      _ = acc + (p :: rest).length := by push_cast [List.length_cons]; ring

lemma sparseDotProduct_le (q doc : List (String × ℝ))
    (hq : ∀ p ∈ q, 0 ≤ p.2 ∧ p.2 ≤ 1) (hdoc : ∀ p ∈ doc, 0 ≤ p.2 ∧ p.2 ≤ 1) :
    sparseDotProduct q doc ≤ (min q.length doc.length : ℕ) := by
  unfold sparseDotProduct
  by_cases hl : q.length ≤ doc.length
  · rw [if_pos hl]
    have := dot_foldl_le doc hdoc q hq 0
    simp only [zero_add] at this
    calc _ ≤ (q.length : ℝ) := this
      _ = ((min q.length doc.length : ℕ) : ℝ) := by rw [min_eq_left hl]
  · rw [if_neg hl]
    have := dot_foldl_le q hq doc hdoc 0
    simp only [zero_add] at this
    calc _ ≤ (doc.length : ℝ) := this
      _ = ((min q.length doc.length : ℕ) : ℝ) := by
          rw [min_eq_right (le_of_not_le hl)]

lemma denseScore_nonneg (d : ℝ) : 0 ≤ denseScore d := le_max_left 0 _

lemma denseScore_le_one (d : ℝ) (hd : 0 ≤ d) : denseScore d ≤ 1 := by
  unfold denseScore
  apply max_le zero_le_one
  linarith

/-- C7 amended: the fused score is `0.6·dense + 0.4·sparseDot` with the
dense part in `[0, 1]` for any non-negative distance, but the sparse
dot product of two `[0, 1]`-weighted maps is bounded only by the size
of the smaller map, so the fused score is bounded by
`0.6 + 0.4·min(|q|, |page|)` — it is *not* bounded by `1.0 + ε` in
general. -/
theorem C7_fused_score_bound (d : ℝ) (q doc : List (String × ℝ)) (hd : 0 ≤ d)
    (hq : ∀ p ∈ q, 0 ≤ p.2 ∧ p.2 ≤ 1) (hdoc : ∀ p ∈ doc, 0 ≤ p.2 ∧ p.2 ≤ 1) :
    hybridScore d q doc ≤ 0.6 + 0.4 * (min q.length doc.length : ℕ) := by
  unfold hybridScore
  have h1 := denseScore_le_one d hd
  have h2 := sparseDotProduct_le q doc hq hdoc
  nlinarith [denseScore_nonneg d]

/-- Witness for C7 amended: two singleton maps with weight 1 give a
fused score bounded by `0.6 + 0.4·1 = 1`. -/
theorem C7_fused_score_bound_witness :
    hybridScore 0 [("x", (1 : ℝ))] [("x", (1 : ℝ))] ≤
      0.6 + 0.4 * (min (List.length [("x", (1 : ℝ))]) (List.length [("x", (1 : ℝ))]) : ℕ) :=
  C7_fused_score_bound 0 [("x", (1 : ℝ))] [("x", (1 : ℝ))] (le_refl 0)
    (by intro p hp; simp at hp; simp [hp]) (by intro p hp; simp at hp; simp [hp])

/-- Counterexample for C7 as stated: for the seven-distinct-term text
matched against itself at dense distance 0, every stored weight is 1
and the fused score is `0.6·1 + 0.4·7 = 3.4`, far above `1.0 + ε`. -/
theorem C7_fused_score_counterexample :
    hybridScore 0 (generateSparseVector sevenTerms) (generateSparseVector sevenTerms) =
      17 / 5 := by
  have hone : ∀ p ∈ generateSparseVector sevenTerms, p.2 = 1 := by
    intro p hp
    obtain ⟨t, ht, rfl⟩ := List.mem_map.mp hp
    show sparseWeight sevenTerms t = 1
    have hr := sevenTerms_raw t ht
    have hall : ∀ x ∈ (sparseTerms sevenTerms).map (rawWeight sevenTerms),
        x = Real.log 2 * Real.log 8 := by
      intro x hx
      obtain ⟨u, hu, rfl⟩ := List.mem_map.mp hx
      exact sevenTerms_raw u hu
    have hdiv : maxWeightDivisor sevenTerms = Real.log 2 * Real.log 8 := by
      show ((sparseTerms sevenTerms).map (rawWeight sevenTerms)).foldr max 1 = _
      rcases foldr_max_choice ((sparseTerms sevenTerms).map (rawWeight sevenTerms)) 1
        with h | h
      · exfalso
        have hm : rawWeight sevenTerms "alpha" ≤ maxWeightDivisor sevenTerms :=
          rawWeight_le_divisor sevenTerms "alpha" (by decide)
        have : maxWeightDivisor sevenTerms = 1 := h
        rw [this, sevenTerms_raw "alpha" (by decide)] at hm
        exact absurd hm (not_le.mpr log2_log8_gt_one)
      · exact hall _ h
    rw [sparseWeight, hdiv, hr]
    exact div_self (by nlinarith [log2_log8_gt_one])
  have hdot := sparseDot_self_ones (generateSparseVector sevenTerms) hone
  have hlen : (generateSparseVector sevenTerms).length = 7 := by
    rw [generateSparseVector, List.length_map]
    rfl
  unfold hybridScore
  rw [hdot, hlen]
  unfold denseScore
  norm_num

/-! ## C8 — the dense embedding algorithm -/

lemma bump_foldl (w : ℚ) : ∀ (ps : List ℕ) (v : ℕ → ℚ) (q : ℕ),
    (ps.foldl (fun v p => bump v p w) v) q = v q + w * ps.count q := by
  intro ps
  induction ps with
  | nil => intro v q; simp
  | cons p ps ih =>
    intro v q
    rw [List.foldl_cons, ih]
    unfold bump
    by_cases hpq : p = q
    · subst hpq
      rw [Function.update_same, List.count_cons]
      simp only [beq_self_eq_true, if_true]
      push_cast
      ring
    · rw [Function.update_noteq (Ne.symm hpq), List.count_cons]
      have hb : (p == q) = false := by simpa using hpq
      rw [hb]
      simp

lemma count_contrib (w : String) (q : ℕ) :
    (((contribPositions w).count q : ℕ) : ℚ) =
      ∑ j ∈ Finset.range 3, if hashIndex w j = q then 1 else 0 := by
  rw [Finset.sum_range_succ, Finset.sum_range_succ, Finset.sum_range_one]
  by_cases h0 : hashIndex w 0 = q <;> by_cases h1 : hashIndex w 1 = q <;>
    by_cases h2 : hashIndex w 2 = q <;>
      simp [contribPositions, List.count_cons, List.count_nil, beq_iff_eq, h0, h1, h2] <;>
        norm_num

lemma denseFold (n : ℕ) : ∀ (l : List (ℕ × String)) (v : ℕ → ℚ) (q : ℕ),
    (l.foldl (denseStep n) v) q =
      v q + (l.map (fun iw =>
        if 2 ≤ iw.2.length then
          posWeight iw.1 n * (((contribPositions iw.2).count q : ℕ) : ℚ)
        else 0)).sum := by
  intro l
  induction l with
  | nil => intro v q; simp
  | cons iw rest ih =>
    intro v q
    rw [List.foldl_cons, ih]
    by_cases hlen : iw.2.length < 2
    · have hstep : denseStep n v iw = v := by rw [denseStep, if_pos hlen]
      have h2 : ¬ 2 ≤ iw.2.length := not_le.mpr hlen
      rw [hstep]
      simp [h2]
    · have h2 : 2 ≤ iw.2.length := not_lt.mp hlen
      have hstep : denseStep n v iw q =
          v q + posWeight iw.1 n * (((contribPositions iw.2).count q : ℕ) : ℚ) := by
        rw [denseStep, if_neg hlen, bump_foldl]
      rw [hstep]
      simp only [List.map_cons, List.sum_cons, h2, if_true]
      ring

lemma denseAccum_eq_claimAmended (ws : List String) :
    denseAccum ws = claimDenseAccumAmended ws := by
  funext q
  rw [denseAccum, denseFold, claimDenseAccumAmended]
  simp only [zero_add]
  congr 1
  apply List.map_congr_left
  intro iw _
  by_cases h2 : 2 ≤ iw.2.length
  · simp only [h2, if_true, count_contrib, Finset.mul_sum, mul_ite, mul_one, mul_zero]
  · simp [h2]

/-- C8 amended: the dense embedding is computed exactly as the claim's
algorithm with one amendment — only tokens of length at least 2 are
hashed and accumulated (the source skips `word.length < 2`); for every
text the source function and the amended spec algorithm produce the
same vector. -/
theorem C8_dense_embedding_algorithm (text : String) :
    generateDenseVector text = claimDenseVectorAmended text := by
  simp only [generateDenseVector, claimDenseVectorAmended]
  rw [denseAccum_eq_claimAmended]

/-- Counterexample for C8 as stated: on the text `"a cat"` the source
skips the single-character token `"a"` while the claim's algorithm
hashes every token, so the two vectors differ (at hash index 97, the
seed-0 position of `"a"`). -/
theorem C8_dense_embedding_counterexample :
    generateDenseVector "a cat" ≠ claimDenseVector "a cat" := by
  intro h
  have h97 := congrFun h 97
  have hne : ¬ wordsOf "a cat" = [] := by decide
  have hws : wordsOf "a cat" = ["a", "cat"] := by decide
  have hacc : denseAccum (wordsOf "a cat") 97 = 0 := by decide
  have e1 : hashIndex "a" 0 = 97 := by decide
  have e2 : hashIndex "a" 1 = 128 := by decide
  have e3 : hashIndex "a" 2 = 159 := by decide
  have e4 : hashIndex "cat" 0 = 1494 := by decide
  have e5 : hashIndex "cat" 1 = 565 := by decide
  have e6 : hashIndex "cat" 2 = 1172 := by decide
  have hacc' : claimDenseAccum (wordsOf "a cat") 97 = 1 := by
    rw [claimDenseAccum, hws]
    rw [show (["a", "cat"] : List String).enum = [(0, "a"), (1, "cat")] from rfl]
    simp only [List.map_cons, List.map_nil, List.sum_cons, List.sum_nil,
      Finset.sum_range_succ, Finset.sum_range_zero]
    rw [e1, e2, e3, e4, e5, e6]
    norm_num [posWeight]
  have hcode : generateDenseVector "a cat" 97 = 0 := by
    simp only [generateDenseVector, if_neg hne]
    unfold normalizeDense
    split <;> simp [hacc]
  have hmagpos : 0 < l2magnitude (claimDenseAccum (wordsOf "a cat")) := by
    rw [l2magnitude, Real.sqrt_pos]
    have hmem : (97 : ℕ) ∈ Finset.range denseDim := by
      rw [Finset.mem_range]
      norm_num [denseDim]
    have hle := Finset.single_le_sum
      (f := fun p => ((claimDenseAccum (wordsOf "a cat") p : ℝ)) ^ 2)
      (fun i _ => sq_nonneg _) hmem
    simp only [hacc'] at hle
    push_cast at hle
    linarith
  have hspec : claimDenseVector "a cat" 97 =
      1 / l2magnitude (claimDenseAccum (wordsOf "a cat")) := by
    simp only [claimDenseVector, if_neg hne]
    unfold normalizeDense
    rw [if_pos hmagpos]
    simp [hacc']
  have hpos : (0 : ℝ) < claimDenseVector "a cat" 97 := by
    rw [hspec]
    exact div_pos one_pos hmagpos
  rw [hcode] at h97
  linarith [h97, hpos]

/-! ## C5 / C10 — properties of the hybrid search pipeline -/

lemma insertSorted_perm (le : α → α → Bool) (x : α) :
    ∀ l : List α, (insertSorted le x l).Perm (x :: l)
  | [] => List.Perm.refl _
  | y :: ys => by
    rw [insertSorted]
    split
    · exact List.Perm.refl _
    · exact List.Perm.trans ((insertSorted_perm le x ys).cons y) (List.Perm.swap x y ys)

lemma sortByRel_perm (le : α → α → Bool) : ∀ l : List α, (sortByRel le l).Perm l
  | [] => List.Perm.refl _
  | x :: xs =>
    List.Perm.trans (insertSorted_perm le x (sortByRel le xs))
      ((sortByRel_perm le xs).cons x)

lemma nodup_filterMap_map {α β : Type _} (f : α → Option β) (g : β → α)
    (hf : ∀ k r, f k = some r → g r = k) :
    ∀ keys : List α, keys.Nodup → ((keys.filterMap f).map g).Nodup := by
  intro keys
  induction keys with
  | nil => intro _; simp
  | cons k ks ih =>
    intro hnd
    have hnd' := List.nodup_cons.mp hnd
    rw [List.filterMap_cons]
    cases hfk : f k with
    | none => exact ih hnd'.2
    | some r =>
      rw [List.map_cons]
      refine List.nodup_cons.mpr ⟨?_, ih hnd'.2⟩
      intro hmem
      obtain ⟨r', hr', hgr'⟩ := List.mem_map.mp hmem
      obtain ⟨k', hk', hfk'⟩ := List.mem_filterMap.mp hr'
      have hkk : k' = k := by rw [← hf k' r' hfk', hgr', hf k r hfk]
      exact hnd'.1 (hkk ▸ hk')

lemma minByDistance_cons (r x : RankedVector) (xs : List RankedVector) :
    minByDistance r (x :: xs) =
      minByDistance (if x.dense_distance < r.dense_distance then x else r) xs := rfl

lemma minByDistance_mem : ∀ (rs : List RankedVector) (r : RankedVector),
    minByDistance r rs ∈ r :: rs := by
  intro rs
  induction rs with
  | nil => intro r; exact List.mem_cons_self r []
  | cons x xs ih =>
    intro r
    rw [minByDistance_cons]
    rcases List.mem_cons.mp (ih (if x.dense_distance < r.dense_distance then x else r)) with
      h | h
    · rw [h]
      split
      · exact List.mem_cons_of_mem r (List.mem_cons_self x xs)
      · exact List.mem_cons_self r (x :: xs)
    · exact List.mem_cons_of_mem r (List.mem_cons_of_mem x h)

lemma minByDistance_le : ∀ (rs : List RankedVector) (r : RankedVector),
    ∀ x ∈ r :: rs, (minByDistance r rs).dense_distance ≤ x.dense_distance := by
  intro rs
  induction rs with
  | nil =>
    intro r x hx
    rcases List.mem_cons.mp hx with rfl | hx'
    · exact le_refl _
    · cases hx'
  | cons y ys ih =>
    intro r x hx
    rw [minByDistance_cons]
    have hbr : (if y.dense_distance < r.dense_distance then y else r).dense_distance ≤
        r.dense_distance := by
      split
      · exact le_of_lt (by assumption)
      · exact le_refl _
    have hby : (if y.dense_distance < r.dense_distance then y else r).dense_distance ≤
        y.dense_distance := by
      split
      · exact le_refl _
      · exact le_of_not_lt (by assumption)
    have hself := ih (if y.dense_distance < r.dense_distance then y else r) _
      (List.mem_cons_self _ ys)
    rcases List.mem_cons.mp hx with rfl | hx'
    · exact le_trans hself hbr
    · rcases List.mem_cons.mp hx' with rfl | hx''
      · exact le_trans hself hby
      · exact ih _ x (List.mem_cons_of_mem _ hx'')

lemma bestPerDocument_key (rows : List RankedVector) : ∀ (docId : String) (r : RankedVector),
    (match rows.filter (fun x => x.document_id = docId) with
      | [] => none
      | r0 :: rs => some (minByDistance r0 rs)) = some r → r.document_id = docId := by
  intro docId r h
  cases hfilter : rows.filter (fun x => x.document_id = docId) with
  | nil => rw [hfilter] at h; cases h
  | cons r0 rs =>
    rw [hfilter] at h
    have hr : minByDistance r0 rs = r := by injection h
    have hmem : minByDistance r0 rs ∈ rows.filter (fun x => x.document_id = docId) := by
      rw [hfilter]
      exact minByDistance_mem rs r0
    have := (List.mem_filter.mp hmem).2
    rw [hr] at this
    simpa using this

lemma bestPerDocument_spec {rows : List RankedVector} {r : RankedVector}
    (h : r ∈ bestPerDocument rows) :
    r ∈ rows ∧ ∀ v ∈ rows, v.document_id = r.document_id →
      r.dense_distance ≤ v.dense_distance := by
  unfold bestPerDocument at h
  obtain ⟨docId, hdoc, hsome⟩ := List.mem_filterMap.mp h
  have hkey : r.document_id = docId := bestPerDocument_key rows docId r hsome
  cases hfilter : rows.filter (fun x => x.document_id = docId) with
  | nil => rw [hfilter] at hsome; cases hsome
  | cons r0 rs =>
    rw [hfilter] at hsome
    have hr : minByDistance r0 rs = r := by injection hsome
    have hmemf : r ∈ rows.filter (fun x => x.document_id = docId) := by
      rw [hfilter, ← hr]
      exact minByDistance_mem rs r0
    refine ⟨(List.mem_filter.mp hmemf).1, ?_⟩
    intro v hv hvid
    have hvf : v ∈ rows.filter (fun x => x.document_id = docId) :=
      List.mem_filter.mpr ⟨hv, by simp [hvid, hkey]⟩
    rw [hfilter] at hvf
    rw [← hr]
    exact minByDistance_le rs r0 v hvf

lemma bestPerDocument_ids_nodup (rows : List RankedVector) :
    ((bestPerDocument rows).map (fun r => r.document_id)).Nodup := by
  unfold bestPerDocument
  exact nodup_filterMap_map _ _ (bestPerDocument_key rows) _ (List.nodup_dedup _)

lemma mem_foldr_append {α β : Type _} (g : α → List β) :
    ∀ (l : List α) (x : β),
      (x ∈ l.foldr (fun a acc => g a ++ acc) []) ↔ ∃ a ∈ l, x ∈ g a := by
  intro l
  induction l with
  | nil => intro x; simp
  | cons a rest ih => intro x; simp [ih]

lemma mem_candidateRows {db : Database} {qd : ℕ → ℝ} {u : String} {f : SearchFilters}
    {v : RankedVector} (h : v ∈ candidateRows db qd u f) :
    ∃ d ∈ db.documents, d.id = v.document_id ∧ d.user_id = u ∧
      d.status = DocStatus.READY := by
  unfold candidateRows at h
  obtain ⟨vr, _, hvr⟩ := (mem_foldr_append _ db.vectors v).mp h
  obtain ⟨d, hd, rfl⟩ := List.mem_map.mp hvr
  have hpred := (List.mem_filter.mp hd).2
  simp only [Bool.and_eq_true, decide_eq_true_eq] at hpred
  exact ⟨d, (List.mem_filter.mp hd).1, hpred.1.1.1, hpred.1.1.2, hpred.1.2⟩

lemma topRankedRows_subset {db : Database} {qd : ℕ → ℝ} {u : String} {f : SearchFilters}
    {row : RankedVector} (h : row ∈ topRankedRows db qd u f) :
    row ∈ bestPerDocument (candidateRows db qd u f) := by
  unfold topRankedRows at h
  have h1 := List.take_subset 100 _ h
  exact (sortByRel_perm _ _).mem_iff.mp h1

lemma topRankedRows_ids_nodup (db : Database) (qd : ℕ → ℝ) (u : String)
    (f : SearchFilters) :
    ((topRankedRows db qd u f).map (fun r => r.document_id)).Nodup := by
  unfold topRankedRows
  have h1 := bestPerDocument_ids_nodup (candidateRows db qd u f)
  have h2 : ((sortByRel (fun a b => decide (a.dense_distance ≤ b.dense_distance))
      (bestPerDocument (candidateRows db qd u f))).map (fun r => r.document_id)).Nodup :=
    ((sortByRel_perm _ _).map (fun r : RankedVector => r.document_id)).nodup_iff.mpr h1
  rw [List.map_take]
  exact (List.take_sublist 100 _).nodup h2

lemma mem_hybridSearch {db : Database} {q u : String} {f : SearchFilters}
    {r : SearchResult} (h : r ∈ hybridSearch db q u f) :
    ∃ row ∈ topRankedRows db (generateDenseVector q) u f,
      r = toSearchResult q (generateSparseVector q) row := by
  unfold hybridSearch at h
  have h' := (sortByRel_perm _ _).mem_iff.mp h
  obtain ⟨row, hrow, hr⟩ := List.mem_map.mp h'
  exact ⟨row, hrow, hr.symm⟩

/-- C5: for every query, owner, filter set and database, hybrid search
returns at most one entry per document id, and each returned entry
corresponds to a candidate page of that document with the lowest dense
distance among all of the document's candidate pages. -/
theorem C5_one_result_per_document (db : Database) (query userId : String)
    (f : SearchFilters) :
    ((hybridSearch db query userId f).map (fun r => r.document_id)).Nodup ∧
    ∀ r ∈ hybridSearch db query userId f,
      ∃ b ∈ candidateRows db (generateDenseVector query) userId f,
        b.document_id = r.document_id ∧ b.page_number = r.page_number ∧
        ∀ v ∈ candidateRows db (generateDenseVector query) userId f,
          v.document_id = r.document_id → b.dense_distance ≤ v.dense_distance := by
  constructor
  · unfold hybridSearch
    have h1 := topRankedRows_ids_nodup db (generateDenseVector query) userId f
    have hmap : ((topRankedRows db (generateDenseVector query) userId f).map
          (toSearchResult query (generateSparseVector query))).map
        (fun r => r.document_id) =
        (topRankedRows db (generateDenseVector query) userId f).map
          (fun r => r.document_id) := by
      rw [List.map_map]
      rfl
    have h2 : (((topRankedRows db (generateDenseVector query) userId f).map
          (toSearchResult query (generateSparseVector query))).map
        (fun r => r.document_id)).Nodup := by
      rw [hmap]
      exact h1
    exact ((sortByRel_perm _ _).map (fun r : SearchResult => r.document_id)).nodup_iff.mpr h2
  · intro r hr
    obtain ⟨row, hrow, rfl⟩ := mem_hybridSearch hr
    have hbest := bestPerDocument_spec (topRankedRows_subset hrow)
    exact ⟨row, hbest.1, rfl, rfl, hbest.2⟩

/-- C10: hybrid search only returns documents whose status is `READY`;
pages of documents in any other status (`UPLOADED`, `PROCESSING`,
`OCR_COMPLETE`, `ERROR`) are excluded even when vector rows exist for
them. -/
theorem C10_only_ready_documents (db : Database) (query userId : String)
    (f : SearchFilters) (x : String)
    (hx : ∀ d ∈ db.documents, d.id = x →
      d.status = DocStatus.UPLOADED ∨ d.status = DocStatus.PROCESSING ∨
        d.status = DocStatus.OCR_COMPLETE ∨ d.status = DocStatus.ERROR) :
    (∀ r ∈ hybridSearch db query userId f,
      ∃ d ∈ db.documents, d.id = r.document_id ∧ d.status = DocStatus.READY) ∧
    ∀ r ∈ hybridSearch db query userId f, r.document_id ≠ x := by
  have hready : ∀ r ∈ hybridSearch db query userId f,
      ∃ d ∈ db.documents, d.id = r.document_id ∧ d.status = DocStatus.READY := by
    intro r hr
    obtain ⟨row, hrow, rfl⟩ := mem_hybridSearch hr
    obtain ⟨d, hd, hid, _, hst⟩ :=
      mem_candidateRows (bestPerDocument_spec (topRankedRows_subset hrow)).1
    exact ⟨d, hd, hid, hst⟩
  refine ⟨hready, ?_⟩
  intro r hr hrx
  obtain ⟨d, hd, hid, hst⟩ := hready r hr
  rcases hx d hd (by rw [hid, hrx]) with h | h | h | h <;> rw [hst] at h <;> cases h

/-- Witness for C5: on a one-document store the search returns exactly
one result for `d1`, and its page is (trivially) the document's
lowest-distance candidate. -/
theorem C5_one_result_per_document_witness :
    (hybridSearch db1 "hello" "u1" noFilters).map (fun r => r.document_id) = ["d1"] ∧
    ∃ b ∈ candidateRows db1 (generateDenseVector "hello") "u1" noFilters,
      b.document_id = "d1" ∧
      ∀ v ∈ candidateRows db1 (generateDenseVector "hello") "u1" noFilters,
        v.document_id = "d1" → b.dense_distance ≤ v.dense_distance := by
  have heval : (hybridSearch db1 "hello" "u1" noFilters).map (fun r => r.document_id) =
      ["d1"] := rfl
  refine ⟨heval, ?_⟩
  have hc := C5_one_result_per_document db1 "hello" "u1" noFilters
  cases hres : hybridSearch db1 "hello" "u1" noFilters with
  | nil => rw [hres] at heval; cases heval
  | cons r rest =>
    have hr : r ∈ hybridSearch db1 "hello" "u1" noFilters := by
      rw [hres]
      exact List.mem_cons_self r rest
    have hdoc : r.document_id = "d1" := by
      have h := heval
      rw [hres, List.map_cons] at h
      simp at h
      exact h.1
    obtain ⟨b, hb, hid, _, hmin⟩ := hc.2 r hr
    refine ⟨b, hb, by rw [hid, hdoc], ?_⟩
    intro v hv hvid
    apply hmin v hv
    rw [hvid, hdoc]

/-- Witness for C10: a store whose only document is `PROCESSING` (with
a stored vector row) yields no result for that document. -/
theorem C10_only_ready_documents_witness :
    "d2" ∉ (hybridSearch db2 "hello" "u1" noFilters).map (fun r => r.document_id) := by
  intro hmem
  obtain ⟨r, hr, hid⟩ := List.mem_map.mp hmem
  exact (C10_only_ready_documents db2 "hello" "u1" noFilters "d2"
    (by
      intro d hd _
      have hdoc : d = processingDoc := by simpa [db2] using hd
      rw [hdoc]
      exact Or.inr (Or.inl rfl))).2 r hr hid

end Gnowsis
